import Mathlib

/-!
Verification of the life-scheduler plugin core (`src/core/data.py`,
`src/core/generator.py`) against its natural-language specification.

The Python code is shallowly embedded: dataclasses become structures,
`dict`s become association lists preserving Python's insertion-order
update semantics, exceptions become `Except String`, and the generative
model plus the other asynchronous collaborators become explicit oracle
parameters.  All definitions are executable (fuel-based recursion where
the Python loops are not structural), so concrete runs reduce by `rfl` /
`decide`.
-/

set_option maxRecDepth 4000

/-! ## Basic character/string helpers (Python semantics) -/

/-- Python whitespace for `str.strip()` and the regex class `\s`
(ASCII fragment: space, tab, newline, carriage return, vertical tab,
form feed; the non-ASCII Unicode space code points are not modelled,
none of the strings handled by this plugin contain them). -/
def isPySpace (c : Char) : Bool :=
  c = ' ' || c = '\t' || c = '\n' || c = '\r' || c = '\x0b' || c = '\x0c'

/-- `str.strip()` on a character list. -/
def pyStripL (cs : List Char) : List Char :=
  ((cs.dropWhile isPySpace).reverse.dropWhile isPySpace).reverse

/-- `str.strip()`. -/
def pyStrip (s : String) : String :=
  String.mk (pyStripL s.toList)

/-- Python dict lookup (`d.get(k)`) over an association list. -/
def dictGet {α : Type} : List (String × α) → String → Option α
  | [], _ => none
  | (k, v) :: t, q => if k = q then some v else dictGet t q

/-- Python dict update (`d[k] = v`): replaces in place if the key is
present (keeping its position, as CPython dicts do), appends otherwise. -/
def dictInsert {α : Type} : List (String × α) → String → α → List (String × α)
  | [], k, v => [(k, v)]
  | (k1, v1) :: t, k, v =>
      if k1 = k then (k, v) :: t else (k1, v1) :: dictInsert t k v

/-! ## Data layer: `src/core/data.py` -/

/-- `ScheduleData` from `src/core/data.py`: a `@dataclass(slots=True)` with
exactly the four fields below (`status` is the literal `"ok"`/`"failed"`).
Note: this dataclass has NO `outfit_style` field. -/
structure ScheduleData where
  date : String
  outfit : String
  schedule : String
  status : String
deriving DecidableEq, Repr

/-- The field names accepted by the generated `ScheduleData.__init__`. -/
def scheduleDataFieldNames : List String :=
  ["date", "outfit", "schedule", "status"]

/-- Keyword construction `ScheduleData(**kwargs)`.  Python raises
`TypeError` when a keyword does not name a declared field (with
`slots=True` there is no `__dict__` to absorb extras). `date` has no
default; the other fields default to `""`, `""`, `"ok"`. -/
def mkScheduleDataKw (kwargs : List (String × String)) : Except String ScheduleData :=
  match kwargs.find? (fun kv => !(scheduleDataFieldNames.contains kv.1)) with
  | some kv => .error ("TypeError: unexpected keyword argument " ++ kv.1)
  | none =>
    match dictGet kwargs "date" with
    | none => .error "TypeError: missing required argument date"
    | some d =>
        .ok ⟨d, (dictGet kwargs "outfit").getD "",
              (dictGet kwargs "schedule").getD "",
              (dictGet kwargs "status").getD "ok"⟩

/-- `dataclasses.asdict` on a `ScheduleData` (field order of the class). -/
def asdictS (d : ScheduleData) : List (String × String) :=
  [("date", d.date), ("outfit", d.outfit), ("schedule", d.schedule), ("status", d.status)]

/-- `ScheduleData.from_dict`: `date` is a mandatory key (`data["date"]`,
`KeyError` if absent — modelled as `none`), the rest use `.get` with
defaults. -/
def fromDictO (item : List (String × String)) : Option ScheduleData :=
  match dictGet item "date" with
  | none => none
  | some dt =>
      some ⟨dt, (dictGet item "outfit").getD "",
            (dictGet item "schedule").getD "",
            (dictGet item "status").getD "ok"⟩

/-- The in-memory store `ScheduleDataManager._data`. -/
abbrev Store : Type := List (String × ScheduleData)

/-- The persisted JSON document, modelled at the parsed-object level
(object of objects; `json.dumps`/`json.loads` round-trip Python
dict-of-dict-of-str documents exactly, so the file is represented by the
document it encodes). -/
abbrev Doc : Type := List (String × List (String × String))

/-- `ScheduleDataManager.save`: serialize the whole map,
`{date: asdict(data) for date, data in self._data.items()}`. -/
def saveDoc (store : Store) : Doc :=
  store.map (fun kv => (kv.1, asdictS kv.2))

/-- The parse loop of `ScheduleDataManager.load`: build a fresh dict,
skipping entries whose `from_dict` raises. -/
def loadDoc (doc : Doc) : Store :=
  doc.foldl
    (fun acc kv =>
      match fromDictO kv.2 with
      | none => acc
      | some d => dictInsert acc kv.1 d)
    []

/-- The persisted file: `none` = file absent. -/
abbrev FileState : Type := Option Doc

/-- `save` at the file level: atomically replaces the file's contents by
the serialization of the map (temp-file-then-rename; the previous
contents are irrelevant). -/
def saveFS (store : Store) (_old : FileState) : FileState :=
  some (saveDoc store)

/-- `load` at the file level: absent file means empty store. -/
def loadFS : FileState → Store
  | none => []
  | some doc => loadDoc doc

/-- Combined manager state: in-memory map plus persisted file. -/
structure DMState where
  store : Store
  file : FileState

/-- `ScheduleDataManager.set`: upsert keyed by `data.date`, then
synchronously persist the whole map. -/
def dmSet (dm : DMState) (d : ScheduleData) : DMState :=
  let store1 := dictInsert dm.store d.date d
  ⟨store1, saveFS store1 dm.file⟩

/-- Keys of a store (the dict's key view, used by the store lemmas). -/
def storeKeys {α : Type} (l : List (String × α)) : List String :=
  l.map Prod.fst

/-! ## JSON values and `json.loads` (the fragment used by the plugin) -/

/-- Parsed JSON values.  Numbers keep their raw source text (the plugin
never computes with numbers, only converts payload fields to strings). -/
inductive JVal where
  | str (s : String)
  | num (raw : String)
  | tru
  | fls
  | null
  | arr (xs : List JVal)
  | obj (kvs : List (String × JVal))
deriving Repr

/-- JSON whitespace accepted between tokens by `json.loads`. -/
def isJsonWs (c : Char) : Bool :=
  c = ' ' || c = '\t' || c = '\n' || c = '\r'

/-- Hex digit value for `\uXXXX` escapes. -/
def hexDigitVal (c : Char) : Option Nat :=
  if c.isDigit then some (c.toNat - 48)
  else if 'a' ≤ c ∧ c ≤ 'f' then some (c.toNat - 87)
  else if 'A' ≤ c ∧ c ≤ 'F' then some (c.toNat - 55)
  else none

/-- JSON string body after the opening quote: content chars, honoring the
backslash escapes; strict mode rejects raw control characters.  Returns
the decoded content and the text after the closing quote. -/
def parseStringBody : Nat → List Char → Option (List Char × List Char)
  | 0, _ => none
  | _ + 1, [] => none
  | f + 1, c :: t =>
      if c = '"' then some ([], t)
      else if c = '\\' then
        match t with
        | [] => none
        | e :: r =>
            let cont := fun (ch : Char) (rr : List Char) =>
              match parseStringBody f rr with
              | some pr => some (ch :: pr.1, pr.2)
              | none => none
            if e = '"' then cont '"' r
            else if e = '\\' then cont '\\' r
            else if e = '/' then cont '/' r
            else if e = 'b' then cont '\x08' r
            else if e = 'f' then cont '\x0c' r
            else if e = 'n' then cont '\n' r
            else if e = 'r' then cont '\r' r
            else if e = 't' then cont '\t' r
            else if e = 'u' then
              match r with
              | h1 :: h2 :: h3 :: h4 :: r2 =>
                  match hexDigitVal h1, hexDigitVal h2, hexDigitVal h3, hexDigitVal h4 with
                  | some a, some b, some c2, some d =>
                      cont (Char.ofNat (((a * 16 + b) * 16 + c2) * 16 + d)) r2
                  | _, _, _, _ => none
              | _ => none
            else none
      else if c.toNat < 32 then none
      else
        match parseStringBody f t with
        | some pr => some (c :: pr.1, pr.2)
        | none => none

/-- Optional fraction and exponent of a JSON number (the scanner takes
them only when a digit follows, exactly like the `NUMBER_RE` of the
`json` module). -/
def parseFracExp (pre : List Char) (cs : List Char) : Option (List Char × List Char) :=
  let p2r2 : List Char × List Char :=
    match cs with
    | '.' :: t =>
        let ds := t.takeWhile Char.isDigit
        if ds.isEmpty then (pre, cs) else (pre ++ '.' :: ds, t.drop ds.length)
    | _ => (pre, cs)
  let p2 := p2r2.1
  let r2 := p2r2.2
  let p3r3 : List Char × List Char :=
    match r2 with
    | e :: t =>
        if e = 'e' ∨ e = 'E' then
          match t with
          | s :: t2 =>
              if s = '+' ∨ s = '-' then
                let ds := t2.takeWhile Char.isDigit
                if ds.isEmpty then (p2, r2) else (p2 ++ e :: s :: ds, t2.drop ds.length)
              else
                let ds := t.takeWhile Char.isDigit
                if ds.isEmpty then (p2, r2) else (p2 ++ e :: ds, t.drop ds.length)
          | [] => (p2, r2)
        else (p2, r2)
    | [] => (p2, r2)
  some p3r3

/-- JSON number: `-? (0 | [1-9][0-9]*) frac? exp?`; returns raw text. -/
def parseNumRaw (cs : List Char) : Option (List Char × List Char) :=
  let sr : List Char × List Char :=
    match cs with
    | '-' :: t => (['-'], t)
    | _ => ([], cs)
  match sr.2 with
  | [] => none
  | c :: t =>
      if c = '0' then parseFracExp (sr.1 ++ [c]) t
      else if c.isDigit then
        let ds := t.takeWhile Char.isDigit
        parseFracExp (sr.1 ++ c :: ds) (t.drop ds.length)
      else none

mutual

/-- One JSON value (leading whitespace skipped); fuel-based recursion. -/
def parseVal : Nat → List Char → Option (JVal × List Char)
  | 0, _ => none
  | f + 1, cs =>
      let s := cs.dropWhile isJsonWs
      match s with
      | '"' :: t =>
          match parseStringBody (t.length + 1) t with
          | some pr => some (JVal.str (String.mk pr.1), pr.2)
          | none => none
      | '{' :: t => parseObjItems f t true []
      | '[' :: t => parseArrItems f t true []
      | _ =>
          if "true".toList.isPrefixOf s then some (JVal.tru, s.drop 4)
          else if "false".toList.isPrefixOf s then some (JVal.fls, s.drop 5)
          else if "null".toList.isPrefixOf s then some (JVal.null, s.drop 4)
          else
            match parseNumRaw s with
            | some pr => some (JVal.num (String.mk pr.1), pr.2)
            | none => none

/-- Object members after `{` (duplicate keys overwrite, as a Python dict
built by insertion does). -/
def parseObjItems : Nat → List Char → Bool → List (String × JVal) → Option (JVal × List Char)
  | 0, _, _, _ => none
  | f + 1, cs, isFirst, acc =>
      let s := cs.dropWhile isJsonWs
      match s with
      | '}' :: rest => if isFirst then some (JVal.obj acc, rest) else none
      | '"' :: t =>
          match parseStringBody (t.length + 1) t with
          | none => none
          | some keyr =>
              let r2 := keyr.2.dropWhile isJsonWs
              match r2 with
              | ':' :: r3 =>
                  match parseVal f r3 with
                  | none => none
                  | some vr =>
                      let acc2 := dictInsert acc (String.mk keyr.1) vr.1
                      let r5 := vr.2.dropWhile isJsonWs
                      match r5 with
                      | ',' :: r6 => parseObjItems f r6 false acc2
                      | '}' :: r7 => some (JVal.obj acc2, r7)
                      | _ => none
              | _ => none
      | _ => none

/-- Array members after `[`. -/
def parseArrItems : Nat → List Char → Bool → List JVal → Option (JVal × List Char)
  | 0, _, _, _ => none
  | f + 1, cs, isFirst, acc =>
      let s := cs.dropWhile isJsonWs
      match s with
      | ']' :: rest => if isFirst then some (JVal.arr acc.reverse, rest) else none
      | _ =>
          match parseVal f s with
          | none => none
          | some vr =>
              let r2 := vr.2.dropWhile isJsonWs
              match r2 with
              | ',' :: r3 => parseArrItems f r3 false (vr.1 :: acc)
              | ']' :: r4 => some (JVal.arr (vr.1 :: acc).reverse, r4)
              | _ => none

end

/-- `json.loads` on a character list: one value, then only whitespace. -/
def jsonParseL (cs : List Char) : Option JVal :=
  match parseVal (cs.length + 1) cs with
  | some vr => if (vr.2.dropWhile isJsonWs).isEmpty then some vr.1 else none
  | none => none

/-! ## Structured extractor: `SchedulerGenerator._extract_json_obj` -/

/-- The three-backtick fence token. -/
def btq3 : List Char := "```".toList

/-- The json-tagged fence token. -/
def fenceJsonTag : List Char := "```json".toList

/-- `re.sub(r"^TAG\s*", "", text, flags=re.MULTILINE)`: at every line
start, a literal tag followed by a greedy whitespace run (which may span
lines) is removed; scanning resumes at the match end, whose line-start
status depends on the last removed character. -/
def stripLineFence (tag : List Char) : Nat → Bool → List Char → List Char
  | 0, _, cs => cs
  | f + 1, atStart, cs =>
      if atStart && tag.isPrefixOf cs then
        let rest := cs.drop tag.length
        let ws := rest.takeWhile isPySpace
        let rest2 := rest.drop ws.length
        stripLineFence tag f (ws.getLast? == some '\n') rest2
      else
        match cs with
        | [] => []
        | c :: t => c :: stripLineFence tag f (c == '\n') t

/-- Split a whitespace run before its last newline, if it has one. -/
def lastNewlineSplit (ws : List Char) : Option (List Char × List Char) :=
  match ws.reverse.findIdx? (fun c => c == '\n') with
  | none => none
  | some j =>
      let i := ws.length - 1 - j
      some (ws.take i, ws.drop i)

/-- `re.sub(r"```\s*$", "", text, flags=re.MULTILINE)`: at any position,
three backticks followed by the longest whitespace run ending at a `$`
position (end of text, or just before a newline) are removed; scanning
resumes at the match end. -/
def stripEndFence : Nat → List Char → List Char
  | 0, cs => cs
  | _ + 1, [] => []
  | f + 1, c :: t =>
      if btq3.isPrefixOf (c :: t) then
        let rest := (c :: t).drop 3
        let ws := rest.takeWhile isPySpace
        let rest2 := rest.drop ws.length
        if rest2.isEmpty then stripEndFence f []
        else
          match lastNewlineSplit ws with
          | some pr => stripEndFence f (pr.2 ++ rest2)
          | none => c :: stripEndFence f t
      else c :: stripEndFence f t

/-- The brace-depth scanner state of `_extract_json_obj`: depth counter,
string-literal toggle, escape flag. -/
structure ScanSt where
  brace : Int
  inStr : Bool
  esc : Bool
deriving DecidableEq, Repr

/-- One step of the scanner, exactly the loop body of the source. -/
def scanStep (st : ScanSt) (c : Char) : ScanSt :=
  match st.inStr, st.esc with
  | true, true => ⟨st.brace, true, false⟩
  | true, false =>
      if c = '\\' then ⟨st.brace, true, true⟩
      else if c = '"' then ⟨st.brace, false, false⟩
      else st
  | false, _ =>
      if c = '"' then ⟨st.brace, true, false⟩
      else if c = '{' then ⟨st.brace + 1, false, false⟩
      else if c = '}' then ⟨st.brace - 1, false, false⟩
      else st

/-- Scan from the first `{`; the candidate substring ends at the FIRST
character on which the depth returns to zero (a `}` processed outside a
string literal). -/
def scanCandidate : Nat → ScanSt → List Char → List Char → Option (List Char)
  | 0, _, _, _ => none
  | _ + 1, _, [], _ => none
  | f + 1, st, c :: t, acc =>
      let st2 := scanStep st c
      if st.inStr = false ∧ c = '}' ∧ st2.brace = 0 then some ((c :: acc).reverse)
      else scanCandidate f st2 t (c :: acc)

/-- `allInStr st content` holds when, starting from `st`, the scanner is
inside a string literal at every position while consuming `content`
(i.e. the content never closes the literal). -/
def allInStr : ScanSt → List Char → Bool
  | st, [] => st.inStr
  | st, c :: t => st.inStr && allInStr (scanStep st c) t

/-- `SchedulerGenerator._extract_json_obj`: strip, remove code fences,
find the first `{`, scan to the first depth-zero close, `json.loads` the
candidate, return it only if it is an object; any parse failure returns
absent. -/
def extractJsonObj (s : String) : Option (List (String × JVal)) :=
  let t0 := pyStripL s.toList
  let t1 := stripLineFence fenceJsonTag (t0.length + 1) true t0
  let t2 := stripLineFence btq3 (t1.length + 1) true t1
  let t3 := stripEndFence (t2.length + 1) t2
  let tl := t3.dropWhile (fun c => c ≠ '{')
  match tl with
  | [] => none
  | _ =>
      match scanCandidate (tl.length + 1) ⟨0, false, false⟩ tl [] with
      | none => none
      | some cand =>
          match jsonParseL cand with
          | some (JVal.obj kvs) => some kvs
          | _ => none

/-! ## Python `str()` of JSON values -/

/-- Python `repr` of a parsed JSON value (quotes are rendered as ASCII
apostrophes, as CPython does for strings without special characters;
the plugin only ever converts flat string fields, deeper cases are kept
total for the embedding). -/
def pyRepr : JVal → String
  | .str s => "\x27" ++ s ++ "\x27"
  | .num r => r
  | .tru => "True"
  | .fls => "False"
  | .null => "None"
  | .arr xs => "[" ++ String.intercalate ", " (xs.attach.map (fun x => pyRepr x.1)) ++ "]"
  | .obj kvs =>
      "\x7b" ++
        String.intercalate ", "
          (kvs.attach.map (fun kv => "\x27" ++ kv.1.1 ++ "\x27: " ++ pyRepr kv.1.2)) ++
        "\x7d"
decreasing_by
  · have := List.sizeOf_lt_of_mem x.2
    simp only [JVal.arr.sizeOf_spec]
    omega
  · have := List.sizeOf_lt_of_mem kv.2
    have h2 : sizeOf kv.1.2 < sizeOf kv.1 := by
      obtain ⟨⟨a, b⟩, hm⟩ := kv
      simp only [Prod.mk.sizeOf_spec]
      omega
    simp only [JVal.obj.sizeOf_spec]
    omega

/-- Python `str()`: identity on strings, `repr` otherwise. -/
def pyStr : JVal → String
  | .str s => s
  | v => pyRepr v

/-- `payload.get(key, "")` followed by `str(...)` keeps the raw value
(default the empty JSON string). -/
def objGet (kvs : List (String × JVal)) (k : String) : JVal :=
  (dictGet kvs k).getD (JVal.str "")

/-! ## Generation context -/

/-- `ScheduleContext` from `src/core/generator.py` (all text fields). -/
structure ScheduleContext where
  date_str : String
  weekday : String
  holiday : String
  persona_desc : String
  history_schedules : String
  recent_chats : String
  daily_theme : String
  mood_color : String
  outfit_style : String
  schedule_type : String
deriving DecidableEq, Repr

/-! ## Validator: `SchedulerGenerator._validate_payload` -/

/-- The three marker alternatives of the validation pattern
`(?:风格|【风格】|\[风格\])`; their first characters are pairwise
distinct, so at most one literal can match at a given position. -/
def styleMarkerLits : List (List Char) :=
  ["风格".toList, "【风格】".toList, "[风格]".toList]

/-- Model of `re.match(r"^\s*(?:风格|【风格】|\[风格\])\s*[:：]\s*REQ(?:\s|$)", outfit)`
where `REQ` is `re.escape(required)` (a literal).  The search over the
split of the whitespace run after the colon reflects regex backtracking
when `required` itself starts with whitespace. -/
def styleLineMatch (required outfit : String) : Bool :=
  let cs := outfit.toList
  let r1 := cs.dropWhile isPySpace
  match styleMarkerLits.find? (fun lit => lit.isPrefixOf r1) with
  | none => false
  | some lit =>
      let r2 := (r1.drop lit.length).dropWhile isPySpace
      match r2 with
      | [] => false
      | c :: r3 =>
          if c = ':' ∨ c = '：' then
            let req := required.toList
            let wsRun := r3.takeWhile isPySpace
            (List.range (wsRun.length + 1)).any (fun i =>
              let t := r3.drop i
              req.isPrefixOf t &&
              (match t.drop req.length with
               | [] => true
               | d :: _ => isPySpace d))
          else false

/-- `SchedulerGenerator._validate_payload`: absent/falsy payload fails;
trimmed `outfit` and `schedule` must be non-empty; when the context's
chosen style trims to a non-empty string, the payload's `outfit_style`
must trim to exactly that string and the `outfit` must match the
style-line pattern. -/
def validatePayload (payload : Option (List (String × JVal))) (ctx : ScheduleContext) :
    Bool × String :=
  match payload with
  | none => (false, "未能解析出 JSON 对象")
  | some kvs =>
      if kvs.isEmpty then (false, "未能解析出 JSON 对象")
      else
        let outfit := pyStrip (pyStr (objGet kvs "outfit"))
        let schedule := pyStrip (pyStr (objGet kvs "schedule"))
        if outfit = "" then (false, "outfit 不能为空")
        else if schedule = "" then (false, "schedule 不能为空")
        else
          let required := pyStrip ctx.outfit_style
          if required = "" then (true, "")
          else
            let modelStyle := pyStrip (pyStr (objGet kvs "outfit_style"))
            if modelStyle ≠ required then
              (false, "outfit_style 必须严格等于 \"" ++ required ++ "\"")
            else if !(styleLineMatch required outfit) then
              (false, "outfit 第一行必须以 \"风格：" ++ required ++ "\" 开头")
            else (true, "")

/-! ## Style extraction: `_STYLE_PREFIX_RE` and `_extract_style_from_outfit` -/

/-- Drop one closing bracket (`】` or `]`) if present (the two optional
closers come from the two alternatives of `(?:【?风格】?|\[?风格\]?)`). -/
def dropCloseBracket (cs : List Char) : List Char :=
  match cs with
  | c :: t => if c = '】' ∨ c = ']' then t else cs
  | [] => []

/-- Match the marker part `(?:【?风格】?|\[?风格\]?)` at the head of `cs`,
returning the remainder.  An opening bracket, when present, forces its
alternative; a closing bracket is consumed when present (not consuming
it can never help, since the pattern continues with `\s*[:：]` and the
closers are neither whitespace nor colons). -/
def matchStyleMarker (cs : List Char) : Option (List Char) :=
  let core := fun (t : List Char) (close : Char) =>
    if "风格".toList.isPrefixOf t then
      let r := t.drop 2
      some (match r with
            | c :: t2 => if c = close then t2 else r
            | [] => ([] : List Char))
    else none
  match cs with
  | '【' :: t => core t '】'
  | '[' :: t => core t ']'
  | _ =>
      if "风格".toList.isPrefixOf cs then some (dropCloseBracket (cs.drop 2))
      else none

/-- `SchedulerGenerator._extract_style_from_outfit`: strip the outfit,
match `_STYLE_PREFIX_RE = ^\s*(?:【?风格】?|\[?风格\]?)\s*[:：]\s*(?P<style>.+?)(?:\n|$)`,
and return the stripped group (empty when there is no match).  After the
colon, the greedy `\s*` plus lazy `.+?` capture, up to `\n` or the end,
the text starting at the first non-whitespace character; when only
whitespace remains the group strips to the empty string — the same value
the no-match case yields. -/
def extractStyleFromOutfit (outfit : String) : String :=
  if outfit = "" then ""
  else
    let s := pyStripL outfit.toList
    let r1 := s.dropWhile isPySpace
    match matchStyleMarker r1 with
    | none => ""
    | some r2 =>
        let r3 := r2.dropWhile isPySpace
        match r3 with
        | [] => ""
        | c :: r4 =>
            if c = ':' ∨ c = '：' then
              if r4.isEmpty then ""
              else
                let d := r4.dropWhile isPySpace
                if d.isEmpty then ""
                else String.mk (pyStripL (d.takeWhile (fun ch => ch ≠ '\n')))
            else ""

/-! ## Style picking: `SchedulerGenerator._pick_outfit_style` -/

/-- `getattr(data, "outfit_style", "")`: the `ScheduleData` dataclass in
`src/core/data.py` is declared with `slots=True` and has no
`outfit_style` field, so the attribute is never present and the default
is always returned. -/
def getattrOutfitStyle (_d : ScheduleData) : String := ""

/-- The used-style set collected over the last `lookback` days
(`get i` is the store record `i` days back): only `status == "ok"`
records contribute; the explicit attribute (always absent here) falls
back to parsing the outfit text; empty styles are skipped. -/
def usedStyles (lookback : Nat) (get : Nat → Option ScheduleData) : List String :=
  ((List.range lookback).map (fun i => i + 1)).filterMap (fun i =>
    match get i with
    | none => none
    | some d =>
        if d.status ≠ "ok" then none
        else
          let s0 := pyStrip (getattrOutfitStyle d)
          let s := if s0 = "" then extractStyleFromOutfit d.outfit else s0
          if s = "" then none else some s)

/-- `SchedulerGenerator._pick_outfit_style`, with `random.choice`
abstracted as an oracle `choice` (the only fact used about it is that it
returns a member of a non-empty list). -/
def pickOutfitStyle (choice : List String → String) (styles : List String)
    (lookback : Int) (get : Nat → Option ScheduleData) : String :=
  if styles.isEmpty then ""
  else if lookback ≤ 0 ∨ styles.length ≤ 1 then choice styles
  else
    let used := usedStyles lookback.toNat get
    let candidates := styles.filter (fun s => decide (s ∉ used))
    choice (if candidates.isEmpty then styles else candidates)

/-! ## Prompt builder: `SchedulerGenerator._build_prompt` -/

/-- The regex class `\w` (ASCII fragment: letters, digits, underscore;
the template placeholders of this plugin are ASCII identifiers). -/
def isWordChar (c : Char) : Bool :=
  c.isAlphanum || c = '_'

/-- `re.findall(r"\{(\w+)\}", tmpl)`: left-to-right non-overlapping
scan; at each `{`, a maximal non-empty word run immediately followed by
`}` yields a group, and scanning resumes after the match; otherwise the
scan advances one character. -/
def findallWF : Nat → List Char → List (List Char)
  | 0, _ => []
  | _ + 1, [] => []
  | f + 1, c :: t =>
      if c = '{' then
        match t.takeWhile isWordChar, t.drop (t.takeWhile isWordChar).length with
        | a :: l, '}' :: r => (a :: l) :: findallWF f r
        | _, _ => findallWF f t
      else findallWF f t

/-- `re.findall(r"\{(\w+)\}", tmpl)` with sufficient fuel. -/
def findallN (t : List Char) : List (List Char) :=
  findallWF (t.length + 1) t

/-- Python `str.format_map`-style rendering with keyword lookup `v`
(`tmpl.format(**ctx_dict)`): `{{`/`}}` are escaped braces, a lone `}` or
an unterminated `{` raises `ValueError`, an all-digit field name is a
positional index (an `IndexError`, since no positional arguments are
passed), and an unknown keyword raises `KeyError`.  Conversion/format
specs (`!r`, `:spec`) and attribute/index access after the base name are
looked up by base name and substituted raw — the templates this
development reasons about never contain them. -/
def pyFormatF : Nat → List Char → (String → Option String) → Except String (List Char)
  | 0, _, _ => .error "format fuel exhausted"
  | _ + 1, [], _ => .ok []
  | f + 1, c :: t, v =>
      if c = '{' then
        match t with
        | [] => .error "ValueError: expected close brace before end of string"
        | d :: t2 =>
            if d = '{' then (pyFormatF f t2 v).map (fun r => '{' :: r)
            else
              let field := (d :: t2).takeWhile (fun x => decide (x ≠ '}'))
              match (d :: t2).drop field.length with
              | [] => .error "ValueError: expected close brace before end of string"
              | _ :: rest =>
                  let namePart := field.takeWhile (fun x => decide (x ≠ '!') && decide (x ≠ ':'))
                  let base := namePart.takeWhile (fun x => decide (x ≠ '.') && decide (x ≠ '['))
                  if base.isEmpty then .error "IndexError: no positional arguments"
                  else if base.all Char.isDigit then
                    .error "IndexError: replacement index out of range"
                  else
                    match v (String.mk base) with
                    | none => .error ("KeyError: " ++ String.mk base)
                    | some val => (pyFormatF f rest v).map (fun r => val.toList ++ r)
      else if c = '}' then
        match t with
        | [] => .error "ValueError: single close brace in format string"
        | d :: t2 =>
            if d = '}' then (pyFormatF f t2 v).map (fun r => '}' :: r)
            else .error "ValueError: single close brace in format string"
      else (pyFormatF f t v).map (fun r => c :: r)

/-- Well-formed templates: every brace occurrence is an escaped `{{` or
`}}`, or a simple placeholder `{w}` whose name `w` is a non-empty word
run that is not all digits.  (This is the class of templates the
builder's `\{(\w+)\}` safety net fully covers.) -/
def wfTemplateF : Nat → List Char → Bool
  | 0, _ => false
  | _ + 1, [] => true
  | f + 1, c :: t =>
      if c = '{' then
        match t with
        | [] => false
        | d :: t2 =>
            if d = '{' then wfTemplateF f t2
            else
              match (d :: t2).takeWhile isWordChar,
                  (d :: t2).drop ((d :: t2).takeWhile isWordChar).length with
              | a :: l, '}' :: r => !((a :: l).all Char.isDigit) && wfTemplateF f r
              | _, _ => false
      else if c = '}' then
        match t with
        | [] => false
        | d :: t2 => if d = '}' then wfTemplateF f t2 else false
      else wfTemplateF f t

/-- Well-formedness of a template string. -/
def wfTemplate (s : String) : Bool :=
  wfTemplateF (s.toList.length + 1) s.toList

/-- The `asdict(ctx)` view of the context: field name to value. -/
def ctxField (ctx : ScheduleContext) : String → Option String := fun n =>
  if n = "date_str" then some ctx.date_str
  else if n = "weekday" then some ctx.weekday
  else if n = "holiday" then some ctx.holiday
  else if n = "persona_desc" then some ctx.persona_desc
  else if n = "history_schedules" then some ctx.history_schedules
  else if n = "recent_chats" then some ctx.recent_chats
  else if n = "daily_theme" then some ctx.daily_theme
  else if n = "mood_color" then some ctx.mood_color
  else if n = "outfit_style" then some ctx.outfit_style
  else if n = "schedule_type" then some ctx.schedule_type
  else none

/-- The hard style-constraint block appended when a style was chosen. -/
def styleBlock (s : String) : String :=
  "\n\n## ✅ 强制约束（必须严格遵循）\n" ++
  "- 你必须严格遵循穿搭风格：【" ++ s ++ "】（不得替换/混用其他风格）。\n" ++
  "- 你必须只输出 JSON 对象本体（不要 Markdown/代码块/解释）。\n" ++
  "- JSON 必须包含字段 \"outfit_style\"，且其值必须严格等于 \"" ++ s ++ "\"。\n" ++
  "- 字段 \"outfit\" 的第一行必须以 \"风格：" ++ s ++ "\" 开头。\n"

/-- The user-amendment block appended when `extra` is truthy. -/
def extraBlock (e : String) : String :=
  "\n\n【用户补充要求】\n请在生成日程时特别注意以下要求：" ++ e

/-- `SchedulerGenerator._build_prompt`: names found by the `\{(\w+)\}`
scan but absent from the context are filled with the empty string
(with a warning, modelled as a no-op), then the template is formatted;
the style and extra blocks are appended afterwards. -/
def buildPrompt (tmpl : String) (ctx : ScheduleContext) (extra : Option String) :
    Except String String :=
  let vars := findallN tmpl.toList
  let look : String → Option String := fun n =>
    match ctxField ctx n with
    | some v => some v
    | none => if vars.contains n.toList then some "" else none
  match pyFormatF (tmpl.toList.length + 1) tmpl.toList look with
  | .error e => .error e
  | .ok out =>
      let base := String.mk out
      let withStyle :=
        if ctx.outfit_style ≠ "" then base ++ styleBlock ctx.outfit_style else base
      match extra with
      | some e => if e ≠ "" then .ok (withStyle ++ extraBlock e) else .ok withStyle
      | none => .ok withStyle

/-- Modelled from the spec: "any placeholder present in the template but
absent from the context is substituted with an empty string" — the same
rendering with a total lookup defaulting every absent field to `""`. -/
def buildPromptTotal (tmpl : String) (ctx : ScheduleContext) (extra : Option String) :
    Except String String :=
  let look : String → Option String := fun n => some ((ctxField ctx n).getD "")
  match pyFormatF (tmpl.toList.length + 1) tmpl.toList look with
  | .error e => .error e
  | .ok out =>
      let base := String.mk out
      let withStyle :=
        if ctx.outfit_style ≠ "" then base ++ styleBlock ctx.outfit_style else base
      match extra with
      | some e => if e ≠ "" then .ok (withStyle ++ extraBlock e) else .ok withStyle
      | none => .ok withStyle

/-! ## Generation orchestrator: `SchedulerGenerator.generate_schedule` -/

/-- `SchedulerGenerator._build_style_repair_prompt`. -/
def buildStyleRepairPrompt (ctx : ScheduleContext) (badText reason : String) : String :=
  let required := pyStrip ctx.outfit_style
  "你之前的输出未通过校验，需要按要求重写。\n" ++
  "校验原因：" ++ reason ++ "\n" ++
  "必须使用穿搭风格：" ++ required ++ "\n\n" ++
  "请只输出 JSON 对象本体，不要 Markdown，不要解释。\n" ++
  "输出 JSON 必须包含字段：outfit_style、outfit、schedule。\n" ++
  "其中 outfit_style 必须严格等于 \"" ++ required ++ "\"；outfit 第一行必须以 \"风格：" ++
  required ++ "\" 开头。\n\n" ++
  "你之前的输出（供参考，可能不合规）：\n" ++ badText ++ "\n"

/-- `SchedulerGenerator._to_schedule_data`: computes defaulted fields and
then calls `ScheduleData(date=..., outfit_style=..., outfit=...,
schedule=...)`.  The `outfit_style` keyword does not name a field of the
`ScheduleData` dataclass in `src/core/data.py`, so this construction
raises `TypeError` on every call. -/
def toScheduleData (kvs : List (String × JVal)) (dateStr : String)
    (ctx : ScheduleContext) : Except String ScheduleData :=
  let outfit :=
    (fun s => if s = "" then "日常休闲装" else s) (pyStrip (pyStr (objGet kvs "outfit")))
  let schedule :=
    (fun s => if s = "" then "无" else s) (pyStrip (pyStr (objGet kvs "schedule")))
  let outfitStyle :=
    (fun s => if s = "" then ctx.outfit_style else s)
      (pyStrip (pyStr (objGet kvs "outfit_style")))
  mkScheduleDataKw
    [("date", dateStr), ("outfit_style", outfitStyle), ("outfit", outfit),
     ("schedule", schedule)]

/-- The synthetic per-attempt session id
`f"life_scheduler_gen_{date_str}_{attempt}"`. -/
def sidOf (dateStr : String) (attempt : Nat) : String :=
  ("life_scheduler_gen_" ++ dateStr ++ "_") ++ Nat.repr attempt

/-- The degraded record built in the `except` branch. -/
def degraded (dateStr : String) : ScheduleData :=
  ⟨dateStr, "生成失败", "生成失败", "failed"⟩

/-- Python truthiness of the extracted payload (`not payload` is true for
`None` and for the empty dict). -/
def payloadTruthy : Option (List (String × JVal)) → Bool
  | none => false
  | some kvs => !kvs.isEmpty

/-- The repair loop `for attempt in range(1, _STYLE_ENFORCE_RETRIES + 1)`
with its per-attempt llm call (fresh synthetic session id), re-extraction
and re-validation; returns the loop outcome (or the exception escaping
it) together with the session ids actually sent to the model. -/
def repairLoop (ctx : ScheduleContext) (llm : String → String → Except String String)
    (dateStr : String) :
    List Nat → String → Option (List (String × JVal)) → Bool → String →
      Except String (Option (List (String × JVal)) × Bool × String) × List String
  | [], _, payload, ok, reason => (.ok (payload, ok, reason), [])
  | a :: rest, content, payload, ok, reason =>
      if ok then (.ok (payload, ok, reason), [])
      else
        let sid := sidOf dateStr a
        match llm sid (buildStyleRepairPrompt ctx content reason) with
        | .error e => (.error e, [sid])
        | .ok content2 =>
            let payload2 := extractJsonObj content2
            let v2 := validatePayload payload2 ctx
            let pr := repairLoop ctx llm dateStr rest content2 payload2 v2.1 v2.2
            (pr.1, sid :: pr.2)

/-- Outcome of the `try` block of `generate_schedule`: the produced
record and updated manager state (or the escaping exception), the
session ids sent to the model, and the final validation verdict (absent
when an exception escaped before the `if not ok or not payload` line). -/
structure PipeOut where
  res : Except String (ScheduleData × DMState)
  calls : List String
  fok : Option Bool

/-- The `try` block of `generate_schedule`: collect context (outcome
supplied by the caller, since it aggregates collaborator calls), build
the prompt, call the model with session id `..._0`, extract, validate,
repair up to `_STYLE_ENFORCE_RETRIES = 2` more times, raise `ValueError`
when still invalid, convert to `ScheduleData` and persist. -/
def runPipeline (dm : DMState) (dateStr tmpl : String)
    (ctxE : Except String ScheduleContext)
    (llm : String → String → Except String String) (extra : Option String) : PipeOut :=
  match ctxE with
  | .error e => ⟨.error e, [], none⟩
  | .ok ctx =>
      match buildPrompt tmpl ctx extra with
      | .error e => ⟨.error e, [], none⟩
      | .ok prompt =>
          let sid0 := sidOf dateStr 0
          match llm sid0 prompt with
          | .error e => ⟨.error e, [sid0], none⟩
          | .ok content0 =>
              let payload0 := extractJsonObj content0
              let v0 := validatePayload payload0 ctx
              let pr := repairLoop ctx llm dateStr [1, 2] content0 payload0 v0.1 v0.2
              let calls := sid0 :: pr.2
              match pr.1 with
              | .error e => ⟨.error e, calls, none⟩
              | .ok pv =>
                  if pv.2.1 && payloadTruthy pv.1 then
                    match pv.1 with
                    | some kvs =>
                        match toScheduleData kvs dateStr ctx with
                        | .error e => ⟨.error e, calls, some true⟩
                        | .ok d => ⟨.ok (d, dmSet dm d), calls, some true⟩
                    | none =>
                        ⟨.error "ValueError: 模型未遵循穿搭风格约束", calls, some true⟩
                  else
                    ⟨.error ("ValueError: 模型未遵循穿搭风格约束：" ++ pv.2.2), calls,
                      some false⟩

/-- Observable outcome of one `generate_schedule` call: the returned
value (or the immediately-raised rejection), the `_generating` flag
after the call, the manager state, the session ids sent to the model,
and the final validation verdict. -/
structure GenResult where
  value : Except String ScheduleData
  generating : Bool
  dm : DMState
  calls : List String
  fok : Option Bool

/-- `SchedulerGenerator.generate_schedule`.  A call while `_generating`
is set raises `RuntimeError("schedule_generating")` before entering the
`try`, leaving all state untouched.  Otherwise the `try` block runs; on
success the `finally` persists the record a second time; on any
exception the `except` branch returns a fresh degraded record WITHOUT
assigning it to `data`, so the `finally` block's `if data:` guard skips
persistence and the store is left unchanged. -/
def generateSchedule (generating : Bool) (dm : DMState) (dateStr tmpl : String)
    (ctxE : Except String ScheduleContext)
    (llm : String → String → Except String String) (extra : Option String) : GenResult :=
  if generating then ⟨.error "schedule_generating", true, dm, [], none⟩
  else
    match runPipeline dm dateStr tmpl ctxE llm extra with
    | ⟨.ok dv, calls, fok⟩ => ⟨.ok dv.1, false, dmSet dv.2 dv.1, calls, fok⟩
    | ⟨.error _, calls, fok⟩ => ⟨.ok (degraded dateStr), false, dm, calls, fok⟩

/-! ## Concrete instances used by witnesses -/

/-- A concrete context whose chosen style is empty (no style checks). -/
def ctxPlain : ScheduleContext :=
  ⟨"2024年01月01日", "星期一", "", "p", "（无历史记录）", "无近期对话",
   "温馨", "米白", "", "宅家"⟩

/-- An empty manager state. -/
def dmEmpty : DMState := ⟨[], none⟩

/-- A model oracle that always raises. -/
def llmBoom : String → String → Except String String := fun _ _ => .error "provider boom"

/-- A model oracle returning a valid flat object. -/
def llmGoodXY : String → String → Except String String :=
  fun _ _ => .ok "\x7b\"outfit\":\"x\",\"schedule\":\"y\"\x7d"

/-- A model oracle returning the empty JSON object (never validates). -/
def llmEmptyObj : String → String → Except String String := fun _ _ => .ok "\x7b\x7d"

/-- A concrete context whose chosen style is `cozy`. -/
def ctxCozy : ScheduleContext :=
  ⟨"2024年01月01日", "星期一", "", "p", "（无历史记录）", "无近期对话",
   "温馨", "米白", "cozy", "宅家"⟩

/-- A deterministic choice oracle: the head of the list. -/
def choiceHead (l : List String) : String := l.headD ""

/-- A two-day history whose ok records both carry style `A` in the
leading style line of the outfit text. -/
def histAllA : Nat → Option ScheduleData := fun i =>
  if i = 1 then some ⟨"2024-01-01", "风格：A 外套", "x", "ok"⟩
  else if i = 2 then some ⟨"2023-12-31", "风格：A 风衣", "y", "ok"⟩
  else none

/-! ### Store lemmas -/

theorem fromDictO_asdictS (d : ScheduleData) : fromDictO (asdictS d) = some d := by
  cases d
  rfl

theorem dictGet_insert_ne {α : Type} (l : List (String × α)) (k q : String) (v : α)
    (h : q ≠ k) : dictGet (dictInsert l k v) q = dictGet l q := by
  induction l with
  | nil =>
      simp only [dictInsert, dictGet]
      rw [if_neg h.symm]
  | cons kv t ih =>
      obtain ⟨k1, v1⟩ := kv
      by_cases hk : k1 = k
      · subst hk
        simp only [dictInsert, if_pos rfl, dictGet]
        rw [if_neg (fun hh => h hh.symm), if_neg (fun hh => h hh.symm)]
      · simp only [dictInsert, if_neg hk, dictGet]
        by_cases hq : k1 = q
        · rw [if_pos hq, if_pos hq]
        · rw [if_neg hq, if_neg hq, ih]

theorem dictGet_saveDoc (s : Store) (k : String) :
    dictGet (saveDoc s) k = (dictGet s k).map asdictS := by
  induction s with
  | nil => rfl
  | cons kv t ih =>
      obtain ⟨k1, d1⟩ := kv
      by_cases hq : k1 = k
      · simp [saveDoc, dictGet, hq]
      · simp only [saveDoc, List.map_cons, dictGet, if_neg hq]
        exact ih

theorem dictInsert_of_not_mem {α : Type} (l : List (String × α)) (k : String) (v : α)
    (h : k ∉ storeKeys l) : dictInsert l k v = l ++ [(k, v)] := by
  induction l with
  | nil => rfl
  | cons kv t ih =>
      obtain ⟨k1, v1⟩ := kv
      have h1 : k1 ≠ k := by
        intro hh
        exact h (by simp [storeKeys, hh])
      have h2 : k ∉ storeKeys t := by
        intro hh
        exact h (by simp [storeKeys] at hh ⊢; exact Or.inr hh)
      simp only [dictInsert, if_neg h1, List.cons_append, ih h2]

theorem loadDoc_saveDoc_aux (m : Store) :
    ∀ acc : Store, (storeKeys m).Nodup → (∀ k ∈ storeKeys m, k ∉ storeKeys acc) →
    (saveDoc m).foldl
      (fun acc kv =>
        match fromDictO kv.2 with
        | none => acc
        | some d => dictInsert acc kv.1 d)
      acc = acc ++ m := by
  induction m with
  | nil => intro acc _ _; simp [saveDoc]
  | cons kv t ih =>
      intro acc hnd hdisj
      obtain ⟨k1, d1⟩ := kv
      have hk1 : k1 ∉ storeKeys acc := hdisj k1 (by simp [storeKeys])
      have hnd2 : (k1 :: storeKeys t).Nodup := by simpa [storeKeys] using hnd
      have hnd' : (storeKeys t).Nodup := (List.nodup_cons.mp hnd2).2
      have hk1t : k1 ∉ storeKeys t := (List.nodup_cons.mp hnd2).1
      simp only [saveDoc, List.map_cons, List.foldl_cons, fromDictO_asdictS]
      have step : dictInsert acc k1 d1 = acc ++ [(k1, d1)] :=
        dictInsert_of_not_mem acc k1 d1 hk1
      rw [step]
      have hdisj' : ∀ k ∈ storeKeys t, k ∉ storeKeys (acc ++ [(k1, d1)]) := by
        intro k hk hmem
        have hkacc : storeKeys (acc ++ [(k1, d1)]) = storeKeys acc ++ [k1] := by
          simp [storeKeys]
        rw [hkacc] at hmem
        rcases List.mem_append.mp hmem with h | h
        · refine hdisj k ?_ h
          simp only [storeKeys, List.map_cons, List.mem_cons]
          exact Or.inr hk
        · have : k = k1 := by simpa using h
          exact hk1t (this ▸ hk)
      have := ih (acc ++ [(k1, d1)]) hnd' hdisj'
      simp only [saveDoc] at this
      rw [this]
      simp

theorem loadDoc_saveDoc (m : Store) (h : (storeKeys m).Nodup) :
    loadDoc (saveDoc m) = m := by
  have := loadDoc_saveDoc_aux m [] h (by intro k _ hk; simp [storeKeys] at hk)
  simpa [loadDoc] using this

/-! ### C7 and C10 -/

/-- C7: For every in-memory map of schedule records — including maps
containing a record with status `failed` — running the store's `save`
followed by `load` on the same path yields a map equal field-for-field
to the saved one.  (`save` writes `{key: asdict(record)}` for the whole
map; `load` rebuilds each record with `from_dict`; the key-uniqueness
hypothesis states that the map is a dict, i.e. has no duplicate keys.) -/
theorem c7_theorem (m : Store) (f : FileState) (h : (storeKeys m).Nodup) :
    loadFS (saveFS m f) = m := by
  simpa [loadFS, saveFS] using loadDoc_saveDoc m h

/-- C7 witness: a concrete two-record map, one record `failed`,
round-trips through save/load. -/
theorem c7_witness :
    loadFS (saveFS
      [("2024-01-01", ⟨"2024-01-01", "大衣", "上午工作", "ok"⟩),
       ("2024-01-02", ⟨"2024-01-02", "生成失败", "生成失败", "failed"⟩)] none) =
      [("2024-01-01", ⟨"2024-01-01", "大衣", "上午工作", "ok"⟩),
       ("2024-01-02", ⟨"2024-01-02", "生成失败", "生成失败", "failed"⟩)] :=
  c7_theorem _ none (by decide)

/-- C10: `set(r)` modifies at most the single entry at key `r.date`:
every other key reads the same record afterwards, both from the
in-memory map and from the JSON document rewritten by the synchronous
save inside `set`. -/
theorem c10_theorem (dm : DMState) (r : ScheduleData) (k : String)
    (h : k ≠ r.date) :
    dictGet (dmSet dm r).store k = dictGet dm.store k ∧
    (dmSet dm r).file = some (saveDoc (dmSet dm r).store) ∧
    dictGet (saveDoc (dmSet dm r).store) k = (dictGet dm.store k).map asdictS := by
  refine ⟨dictGet_insert_ne dm.store r.date k r h, rfl, ?_⟩
  rw [dictGet_saveDoc]
  show (dictGet (dictInsert dm.store r.date r) k).map asdictS = _
  rw [dictGet_insert_ne dm.store r.date k r h]

/-- C10 witness: concrete store with two days; setting a new record for
day 3 leaves day 1 unchanged in memory and in the rewritten document. -/
theorem c10_witness :
    dictGet (dmSet ⟨[("2024-01-01", ⟨"2024-01-01", "a", "b", "ok"⟩)], none⟩
        ⟨"2024-01-03", "c", "d", "ok"⟩).store "2024-01-01" =
      dictGet ([("2024-01-01", ⟨"2024-01-01", "a", "b", "ok"⟩)] : Store) "2024-01-01" ∧
    (dmSet ⟨[("2024-01-01", ⟨"2024-01-01", "a", "b", "ok"⟩)], none⟩
        ⟨"2024-01-03", "c", "d", "ok"⟩).file =
      some (saveDoc (dmSet ⟨[("2024-01-01", ⟨"2024-01-01", "a", "b", "ok"⟩)], none⟩
        ⟨"2024-01-03", "c", "d", "ok"⟩).store) ∧
    dictGet (saveDoc (dmSet ⟨[("2024-01-01", ⟨"2024-01-01", "a", "b", "ok"⟩)], none⟩
        ⟨"2024-01-03", "c", "d", "ok"⟩).store) "2024-01-01" =
      (dictGet ([("2024-01-01", ⟨"2024-01-01", "a", "b", "ok"⟩)] : Store)
        "2024-01-01").map asdictS :=
  c10_theorem _ _ "2024-01-01" (by decide)

/-! ### C6: the structured extractor -/

theorem scanStep_inStr_brace (st : ScanSt) (c : Char) (h : st.inStr = true) :
    (scanStep st c).brace = st.brace := by
  obtain ⟨b, instr, esc⟩ := st
  simp only at h
  subst h
  cases esc
  · simp only [scanStep]
    split
    · rfl
    · split <;> rfl
  · rfl

theorem allInStr_foldl_brace (content : List Char) :
    ∀ st : ScanSt, allInStr st content = true →
      (List.foldl scanStep st content).brace = st.brace := by
  induction content with
  | nil => intro st _; rfl
  | cons c t ih =>
      intro st h
      simp only [allInStr, Bool.and_eq_true] at h
      rw [List.foldl_cons, ih (scanStep st c) h.2, scanStep_inStr_brace st c h.1]

/-- C6: on the concrete spec input the extractor returns exactly the
object with `outfit = "a"` and `schedule = "b {nested}"` (the candidate
closes at the first depth-zero point, before `" trailing"`); and in
general, any characters consumed while the scanner stays inside a string
literal — braces and quotes included, escapes honored — leave the
brace-depth counter unchanged. -/
theorem c6_theorem :
    extractJsonObj "prefix noise \x7b\"outfit\":\"a\",\"schedule\":\"b \x7bnested\x7d\"\x7d trailing" =
      some [("outfit", JVal.str "a"), ("schedule", JVal.str "b \x7bnested\x7d")] ∧
    ∀ st content, allInStr st content = true →
      (List.foldl scanStep st content).brace = st.brace :=
  ⟨rfl, fun st content h => allInStr_foldl_brace content st h⟩

/-- C6 witness: inside a string literal at depth 2, consuming
`ab{"` (with the quote escaped) keeps the depth at 2. -/
theorem c6_witness :
    (List.foldl scanStep ⟨2, true, false⟩ "ab\x7b\\\"".toList).brace = 2 :=
  c6_theorem.2 ⟨2, true, false⟩ "ab\x7b\\\"".toList (by decide)


/-! ### C4: the validation predicate -/

theorem validatePayload_some_true_iff (kvs : List (String × JVal)) (ctx : ScheduleContext) :
    (validatePayload (some kvs) ctx).1 = true ↔
      (kvs.isEmpty = false ∧
       pyStrip (pyStr (objGet kvs "outfit")) ≠ "" ∧
       pyStrip (pyStr (objGet kvs "schedule")) ≠ "" ∧
       (pyStrip ctx.outfit_style = "" ∨
        (pyStrip (pyStr (objGet kvs "outfit_style")) = pyStrip ctx.outfit_style ∧
         styleLineMatch (pyStrip ctx.outfit_style) (pyStrip (pyStr (objGet kvs "outfit"))) = true))) := by
  simp only [validatePayload]
  split_ifs with h1 h2 h3 h4 h5 h6
  · simp [h1]
  · simp [h2]
  · simp [h3]
  · simp only [Bool.not_eq_true] at h1
    simp [h1, h2, h3, h4]
  · simp [h4, h5]
  · have h6' : styleLineMatch (pyStrip ctx.outfit_style)
        (pyStrip (pyStr (objGet kvs "outfit"))) = false := by
      simpa using h6
    simp [h4, h6']
  · simp only [Bool.not_eq_true] at h1
    have h5' : pyStrip (pyStr (objGet kvs "outfit_style")) = pyStrip ctx.outfit_style :=
      not_ne_iff.mp h5
    have h6' : styleLineMatch (pyStrip ctx.outfit_style)
        (pyStrip (pyStr (objGet kvs "outfit"))) = true := by
      simpa using h6
    simp [h1, h2, h3, h5', h6']

/-- C4: for a context whose chosen style (trimmed) is non-empty,
validation succeeds if and only if the payload is present, its trimmed
`outfit` and `schedule` fields are non-empty, its trimmed `outfit_style`
is exactly (byte-for-byte) the chosen style, and its `outfit` matches
the style-line pattern: optional whitespace, a bare or bracket-wrapped
`风格` marker, a colon, then the exact chosen style followed by
whitespace or the end of the text. -/
theorem c4_theorem (payload : Option (List (String × JVal))) (ctx : ScheduleContext)
    (h : pyStrip ctx.outfit_style ≠ "") :
    (validatePayload payload ctx).1 = true ↔
      ∃ kvs, payload = some kvs ∧
        pyStrip (pyStr (objGet kvs "outfit")) ≠ "" ∧
        pyStrip (pyStr (objGet kvs "schedule")) ≠ "" ∧
        pyStrip (pyStr (objGet kvs "outfit_style")) = pyStrip ctx.outfit_style ∧
        styleLineMatch (pyStrip ctx.outfit_style) (pyStrip (pyStr (objGet kvs "outfit"))) = true := by
  cases payload with
  | none => simp [validatePayload]
  | some kvs =>
      rw [validatePayload_some_true_iff]
      constructor
      · rintro ⟨hne, h1, h2, h3 | ⟨h3a, h3b⟩⟩
        · exact absurd h3 h
        · exact ⟨kvs, rfl, h1, h2, h3a, h3b⟩
      · rintro ⟨kvs2, heq, h1, h2, h3, h4⟩
        injection heq with heq2
        subst heq2
        refine ⟨?_, h1, h2, Or.inr ⟨h3, h4⟩⟩
        cases kvs with
        | nil => exact absurd (by decide) h1
        | cons a t => rfl

/-- C4 witness: a payload with outfit line `风格：cozy 针织衫`, non-empty
schedule and `outfit_style = "cozy"` validates against a context whose
chosen style is `cozy`. -/
theorem c4_witness :
    (validatePayload
      (some [("outfit", JVal.str "风格：cozy 针织衫"),
             ("schedule", JVal.str "上午工作"),
             ("outfit_style", JVal.str "cozy")]) ctxCozy).1 = true :=
  (c4_theorem _ ctxCozy (by decide)).mpr
    ⟨_, rfl, by decide, by decide, by decide, by decide⟩

/-! ### C8: anti-repetition style picking -/

/-- C8: with a pool of at least two styles and a positive lookback
window, if some pool style is not in the used set collected from the
last `N` days' ok records (style read from the always-absent explicit
attribute, hence parsed from the leading style line of the outfit text),
the pick is a pool member outside the used set; if the used set covers
the whole pool, the pick is drawn from the full pool. -/
theorem c8_theorem (choice : List String → String) (styles : List String)
    (lookback : Int) (get : Nat → Option ScheduleData)
    (hchoice : ∀ l : List String, l ≠ [] → choice l ∈ l)
    (hlen : 2 ≤ styles.length) (hlb : 1 ≤ lookback) :
    ((∃ s ∈ styles, s ∉ usedStyles lookback.toNat get) →
        pickOutfitStyle choice styles lookback get ∈ styles ∧
        pickOutfitStyle choice styles lookback get ∉ usedStyles lookback.toNat get) ∧
    ((∀ s ∈ styles, s ∈ usedStyles lookback.toNat get) →
        pickOutfitStyle choice styles lookback get ∈ styles) := by
  have hne : styles ≠ [] := by
    intro hh
    rw [hh] at hlen
    simp at hlen
  have hemp : ¬ (styles.isEmpty = true) := by
    simpa [List.isEmpty_iff] using hne
  have hcond : ¬ (lookback ≤ 0 ∨ styles.length ≤ 1) := by
    push_neg
    exact ⟨by omega, by omega⟩
  constructor
  · rintro ⟨s, hs, hsu⟩
    have hsmem : s ∈ styles.filter (fun x => decide (x ∉ usedStyles lookback.toNat get)) :=
      List.mem_filter.mpr ⟨hs, by simpa using hsu⟩
    have hcand : styles.filter (fun x => decide (x ∉ usedStyles lookback.toNat get)) ≠ [] := by
      intro hnil
      rw [hnil] at hsmem
      exact absurd hsmem (List.not_mem_nil s)
    have hpick :
        pickOutfitStyle choice styles lookback get =
          choice (styles.filter (fun x => decide (x ∉ usedStyles lookback.toNat get))) := by
      simp only [pickOutfitStyle]
      rw [if_neg hemp, if_neg hcond,
        if_neg (by simpa [List.isEmpty_iff] using hcand)]
    rw [hpick]
    have hmem := hchoice _ hcand
    have hm2 := List.mem_filter.mp hmem
    exact ⟨hm2.1, by simpa using hm2.2⟩
  · intro hall
    have hcand : styles.filter (fun x => decide (x ∉ usedStyles lookback.toNat get)) = [] :=
      List.filter_eq_nil_iff.mpr (fun a ha => by simpa using hall a ha)
    have hpick : pickOutfitStyle choice styles lookback get = choice styles := by
      simp only [pickOutfitStyle]
      rw [if_neg hemp, if_neg hcond,
        if_pos (by simpa [List.isEmpty_iff] using hcand)]
    rw [hpick]
    exact hchoice styles hne

/-- C8 witness: pool `["A","B","C"]`, lookback 2, both history records
styled `A` via the outfit style line; the pick avoids `A`. -/
theorem c8_witness :
    pickOutfitStyle choiceHead ["A", "B", "C"] 2 histAllA ∈ (["A", "B", "C"] : List String) ∧
    pickOutfitStyle choiceHead ["A", "B", "C"] 2 histAllA ∉ usedStyles (Int.toNat 2) histAllA :=
  (c8_theorem choiceHead ["A", "B", "C"] 2 histAllA
      (fun l hl => by
        cases l with
        | nil => exact absurd rfl hl
        | cons a t => simp [choiceHead])
      (by decide) (by decide)).1
    ⟨"B", by decide, by decide⟩

/-! ### C9: prompt building never raises on well-formed templates -/

theorem takeWhile_append_elem {p : Char → Bool} (w : List Char) (d : Char) (r : List Char)
    (hw : ∀ c ∈ w, p c = true) (hd : p d = false) :
    (w ++ d :: r).takeWhile p = w := by
  induction w with
  | nil => simp [List.takeWhile_cons, hd]
  | cons a l ih =>
      have ha := hw a (by simp)
      simp only [List.cons_append, List.takeWhile_cons, ha, if_true]
      rw [ih (fun c hc => hw c (by simp [hc]))]

theorem takeWhile_eq_self_of_all {p : Char → Bool} (w : List Char)
    (hw : ∀ c ∈ w, p c = true) : w.takeWhile p = w := by
  induction w with
  | nil => rfl
  | cons a l ih =>
      have ha := hw a (by simp)
      simp only [List.takeWhile_cons, ha, if_true]
      rw [ih (fun c hc => hw c (by simp [hc]))]

theorem drop_takeWhile_length {p : Char → Bool} (l : List Char) :
    l.drop (l.takeWhile p).length = l.dropWhile p := by
  induction l with
  | nil => rfl
  | cons a t ih =>
      by_cases ha : p a = true
      · simp [List.takeWhile_cons, List.dropWhile_cons, ha, ih]
      · simp [List.takeWhile_cons, List.dropWhile_cons, ha]

theorem wordChar_props (c : Char) (h : isWordChar c = true) :
    c ≠ '{' ∧ c ≠ '}' ∧ c ≠ '!' ∧ c ≠ ':' ∧ c ≠ '.' ∧ c ≠ '[' := by
  refine ⟨?_, ?_, ?_, ?_, ?_, ?_⟩ <;>
    · intro he
      subst he
      exact absurd h (by decide)

theorem findallWF_fuel (f : Nat) :
    ∀ (g : Nat) (t : List Char), t.length < f → t.length < g →
      findallWF f t = findallWF g t := by
  induction f with
  | zero => intro g t h _; exact absurd h (Nat.not_lt_zero _)
  | succ f' ih =>
      intro g t hf hg
      cases g with
      | zero => exact absurd hg (Nat.not_lt_zero _)
      | succ g' =>
          cases t with
          | nil => rfl
          | cons c t' =>
              simp only [List.length_cons] at hf hg
              simp only [findallWF]
              by_cases hc : c = '{'
              · rw [if_pos hc, if_pos hc]
                split
                · rename_i a l r heq heq2
                  have hr : r.length < t'.length := by
                    have h2 := congrArg List.length heq2
                    simp only [List.length_drop, List.length_cons] at h2
                    omega
                  rw [ih g' r (by omega) (by omega)]
                · exact ih g' t' (by omega) (by omega)
              · rw [if_neg hc, if_neg hc]
                exact ih g' t' (by omega) (by omega)

theorem findallN_cons_ne (c : Char) (t : List Char) (hc : c ≠ '{') :
    findallN (c :: t) = findallN t := by
  simp only [findallN, List.length_cons, findallWF]
  rw [if_neg hc]

theorem findallN_brace (t : List Char) :
    findallN ('{' :: t) =
      (match t.takeWhile isWordChar, t.drop (t.takeWhile isWordChar).length with
       | a :: l, '}' :: r => (a :: l) :: findallN r
       | _, _ => findallN t) := by
  simp only [findallN, List.length_cons, findallWF]
  simp only [if_true]
  split
  · rename_i a l r heq heq2
    have hr : r.length < t.length := by
      have h2 := congrArg List.length heq2
      simp only [List.length_drop, List.length_cons] at h2
      omega
    rw [findallWF_fuel (t.length + 1) (r.length + 1) r (by omega) (by omega)]
  · rfl

theorem findallN_skip (w : List Char) (u : List Char) (hw : ∀ x ∈ w, x ≠ '{') :
    findallN (w ++ u) = findallN u := by
  induction w with
  | nil => rfl
  | cons a l ih =>
      rw [List.cons_append, findallN_cons_ne a _ (hw a (by simp)),
        ih (fun x hx => hw x (by simp [hx]))]

theorem findallN_subset_cons (c : Char) (t : List Char) :
    findallN t ⊆ findallN (c :: t) := by
  by_cases hc : c = '{'
  · subst hc
    rw [findallN_brace]
    split
    · rename_i a l r heq heq2
      have hsplit : t = (a :: l) ++ '}' :: r := by
        have h1 := List.takeWhile_append_dropWhile (p := isWordChar) (l := t)
        have h2 : t.dropWhile isWordChar = '}' :: r := by
          rw [← drop_takeWhile_length]
          exact heq2
        rw [← h1, h2, heq]
      rw [hsplit]
      have hword : ∀ x ∈ (a :: l), x ≠ '{' := by
        intro x hx
        have hmem : x ∈ t.takeWhile isWordChar := heq ▸ hx
        exact (wordChar_props x (List.mem_takeWhile_imp hmem)).1
      rw [findallN_skip (a :: l) ('}' :: r) hword,
        findallN_cons_ne '}' r (by decide)]
      exact fun x hx => List.mem_cons_of_mem _ hx
    · exact fun x hx => hx
  · rw [findallN_cons_ne c t hc]
    exact List.Subset.refl _

theorem exceptMap_isOk {α β : Type} (g : α → β) (e : Except String α) (h : e.isOk = true) :
    (e.map g).isOk = true := by
  cases e with
  | error a => simp [Except.isOk, Except.toBool] at h
  | ok a => simp [Except.isOk, Except.toBool, Except.map]

theorem pyFormat_wf (f : Nat) :
    ∀ (t : List Char) (v v2 : String → Option String),
      t.length < f → wfTemplateF f t = true →
      (∀ w ∈ findallN t, v (String.mk w) = v2 (String.mk w) ∧ (v (String.mk w)).isSome = true) →
      (pyFormatF f t v).isOk = true ∧ pyFormatF f t v = pyFormatF f t v2 := by
  induction f with
  | zero => intro t v v2 h _ _; exact absurd h (Nat.not_lt_zero _)
  | succ f' ih =>
      intro t v v2 hlen hwf hv
      cases t with
      | nil => exact ⟨rfl, rfl⟩
      | cons c t' =>
          simp only [List.length_cons] at hlen
          by_cases hc : c = '{'
          · subst hc
            cases t' with
            | nil =>
                simp only [wfTemplateF, eq_self_iff_true, if_true] at hwf
                exact absurd hwf (by decide)
            | cons d t2 =>
                simp only [List.length_cons] at hlen
                simp only [wfTemplateF, eq_self_iff_true, if_true] at hwf
                simp only [pyFormatF, eq_self_iff_true, if_true]
                by_cases hd : d = '{'
                · subst hd
                  simp only [eq_self_iff_true, if_true] at hwf ⊢
                  have hfn : findallN ('{' :: '{' :: t2) = findallN ('{' :: t2) := by
                    have hw0 : isWordChar '{' = false := by decide
                    rw [findallN_brace]
                    simp [List.takeWhile_cons, hw0]
                  have hsub : ∀ w ∈ findallN t2,
                      v (String.mk w) = v2 (String.mk w) ∧ (v (String.mk w)).isSome = true := by
                    intro w hw2
                    apply hv
                    rw [hfn]
                    exact findallN_subset_cons '{' t2 hw2
                  obtain ⟨hok, heqv⟩ := ih t2 v v2 (by omega) hwf hsub
                  exact ⟨exceptMap_isOk _ _ hok, by rw [heqv]⟩
                · rw [if_neg hd] at hwf
                  rw [if_neg hd, if_neg hd]
                  split at hwf
                  · rename_i a l r heq heq2
                    simp only [Bool.and_eq_true, Bool.not_eq_true'] at hwf
                    obtain ⟨hdig, hwfr⟩ := hwf
                    have hsplit : d :: t2 = (a :: l) ++ '}' :: r := by
                      have h1 := List.takeWhile_append_dropWhile (p := isWordChar) (l := d :: t2)
                      have h2 : (d :: t2).dropWhile isWordChar = '}' :: r := by
                        rw [← drop_takeWhile_length]
                        exact heq2
                      rw [← h1, h2, heq]
                    have hallw : ∀ x ∈ a :: l, isWordChar x = true := by
                      intro x hx
                      exact List.mem_takeWhile_imp (heq ▸ hx)
                    have hfield : (d :: t2).takeWhile (fun x => decide (x ≠ '}')) = a :: l := by
                      rw [hsplit]
                      apply takeWhile_append_elem
                      · intro x hx
                        simpa using ((wordChar_props x (hallw x hx)).2).1
                      · simp
                    have hdrop : (d :: t2).drop ((a :: l) : List Char).length = '}' :: r := by
                      rw [hsplit]
                      exact List.drop_left _ _
                    have hname :
                        (a :: l).takeWhile (fun x => decide (x ≠ '!') && decide (x ≠ ':')) =
                          a :: l := by
                      apply takeWhile_eq_self_of_all
                      intro x hx
                      have hp := wordChar_props x (hallw x hx)
                      simp [hp.2.2.1, hp.2.2.2.1]
                    have hbase :
                        (a :: l).takeWhile (fun x => decide (x ≠ '.') && decide (x ≠ '[')) =
                          a :: l := by
                      apply takeWhile_eq_self_of_all
                      intro x hx
                      have hp := wordChar_props x (hallw x hx)
                      simp [hp.2.2.2.2.1, hp.2.2.2.2.2]
                    have hmem : (a :: l) ∈ findallN ('{' :: d :: t2) := by
                      rw [findallN_brace]
                      simp only [heq, hdrop]
                      exact List.mem_cons_self _ _
                    obtain ⟨hvv, hvsome⟩ := hv (a :: l) hmem
                    have hrlen : r.length < f' := by
                      have h2 := congrArg List.length heq2
                      simp only [List.length_drop, List.length_cons] at h2
                      omega
                    have hsub : ∀ w ∈ findallN r,
                        v (String.mk w) = v2 (String.mk w) ∧
                          (v (String.mk w)).isSome = true := by
                      intro w hw2
                      apply hv
                      rw [findallN_brace]
                      simp only [heq, hdrop]
                      exact List.mem_cons_of_mem _ hw2
                    obtain ⟨hok, heqv⟩ := ih r v v2 hrlen hwfr hsub
                    simp only [hfield, hdrop, hname, hbase, List.isEmpty_cons, hdig,
                      Bool.false_eq_true, if_false]
                    cases hvres : v (String.mk (a :: l)) with
                    | none =>
                        rw [hvres] at hvsome
                        simp at hvsome
                    | some val =>
                        rw [hvres] at hvv
                        rw [← hvv]
                        exact ⟨exceptMap_isOk _ _ hok, by rw [heqv]⟩
                  · exact absurd hwf (by decide)
          · by_cases hc2 : c = '}'
            · subst hc2
              have hbo : ('}' : Char) ≠ '{' := by decide
              cases t' with
              | nil =>
                  simp only [wfTemplateF, hbo, if_false, eq_self_iff_true, if_true] at hwf
                  exact absurd hwf (by decide)
              | cons d t2 =>
                  simp only [List.length_cons] at hlen
                  simp only [wfTemplateF, hbo, if_false, eq_self_iff_true, if_true] at hwf
                  simp only [pyFormatF, hbo, if_false, eq_self_iff_true, if_true]
                  by_cases hd : d = '}'
                  · subst hd
                    simp only [eq_self_iff_true, if_true] at hwf ⊢
                    have hsub : ∀ w ∈ findallN t2,
                        v (String.mk w) = v2 (String.mk w) ∧
                          (v (String.mk w)).isSome = true := by
                      intro w hw2
                      apply hv
                      rw [findallN_cons_ne '}' _ (by decide),
                        findallN_cons_ne '}' _ (by decide)]
                      exact hw2
                    obtain ⟨hok, heqv⟩ := ih t2 v v2 (by omega) hwf hsub
                    exact ⟨exceptMap_isOk _ _ hok, by rw [heqv]⟩
                  · rw [if_neg hd] at hwf
                    exact absurd hwf (by decide)
            · simp only [wfTemplateF, if_neg hc, if_neg hc2] at hwf
              simp only [pyFormatF, if_neg hc, if_neg hc2]
              have hsub : ∀ w ∈ findallN t',
                  v (String.mk w) = v2 (String.mk w) ∧ (v (String.mk w)).isSome = true := by
                intro w hw2
                apply hv
                rw [findallN_cons_ne c t' hc]
                exact hw2
              obtain ⟨hok, heqv⟩ := ih t' v v2 (by omega) hwf hsub
              exact ⟨exceptMap_isOk _ _ hok, by rw [heqv]⟩

/-- C9 counterexample: on the template consisting of a single `{`, the
prompt builder raises (`str.format` fails with `ValueError`; the
`\{(\w+)\}` pre-scan finds nothing to fill), refuting the claim that
building the prompt never raises for every configured template. -/
theorem c9_counterexample :
    (buildPrompt "\x7b" ctxCozy none).isOk = false := by decide

/-- C9 (amended): for every template whose braces all occur as escaped
`{{`/`}}` or as simple placeholders `{w}` (`w` a non-empty word run, not
all digits — the class the `\{(\w+)\}` safety net covers), building the
prompt never raises, and every placeholder naming a field absent from
the context is substituted with the empty string (the build equals the
build with the total, empty-defaulting lookup). -/
theorem c9_theorem (tmpl : String) (ctx : ScheduleContext) (extra : Option String)
    (h : wfTemplate tmpl = true) :
    (buildPrompt tmpl ctx extra).isOk = true ∧
    buildPrompt tmpl ctx extra = buildPromptTotal tmpl ctx extra := by
  have hagree : ∀ w ∈ findallN tmpl.toList,
      (fun n => match ctxField ctx n with
                | some x => some x
                | none =>
                    if (findallN tmpl.toList).contains n.toList then some "" else none)
          (String.mk w) =
        (fun n => some ((ctxField ctx n).getD "")) (String.mk w) ∧
      ((fun n => match ctxField ctx n with
                 | some x => some x
                 | none =>
                     if (findallN tmpl.toList).contains n.toList then some "" else none)
          (String.mk w)).isSome = true := by
    intro w hw
    simp only
    cases hcf : ctxField ctx (String.mk w) with
    | some x => simp [hcf]
    | none =>
        have hcont : (findallN tmpl.toList).contains (String.mk w).toList = true := by
          exact List.elem_iff.mpr hw
        simp [hcf, hcont]
        exact hw
  have hmain := pyFormat_wf (tmpl.toList.length + 1) tmpl.toList
      (fun n => match ctxField ctx n with
                | some x => some x
                | none =>
                    if (findallN tmpl.toList).contains n.toList then some "" else none)
      (fun n => some ((ctxField ctx n).getD ""))
      (by omega) h hagree
  obtain ⟨hok, heqv⟩ := hmain
  constructor
  · simp only [buildPrompt]
    cases hres : pyFormatF (tmpl.toList.length + 1) tmpl.toList
        (fun n => match ctxField ctx n with
                  | some x => some x
                  | none =>
                      if (findallN tmpl.toList).contains n.toList then some "" else none) with
    | error e =>
        rw [hres] at hok
        simp [Except.isOk, Except.toBool] at hok
    | ok out =>
        cases extra with
        | none => rfl
        | some e =>
            by_cases he : e ≠ ""
            · simp [he, Except.isOk, Except.toBool]
            · simp [he, Except.isOk, Except.toBool]
  · simp only [buildPrompt, buildPromptTotal]
    rw [heqv]

/-- C9 witness: a template with one known and one unknown placeholder
builds without raising and equals the empty-defaulting render. -/
theorem c9_witness :
    (buildPrompt "你好 \x7bdaily_theme\x7d \x7bnope\x7d" ctxCozy (some "加练")).isOk = true ∧
    buildPrompt "你好 \x7bdaily_theme\x7d \x7bnope\x7d" ctxCozy (some "加练") =
      buildPromptTotal "你好 \x7bdaily_theme\x7d \x7bnope\x7d" ctxCozy (some "加练") :=
  c9_theorem "你好 \x7bdaily_theme\x7d \x7bnope\x7d" ctxCozy (some "加练") (by decide)

/-! ### C1, C2, C3, C5: the orchestrator -/

theorem generateSchedule_error (dm : DMState) (dateStr tmpl : String)
    (ctxE : Except String ScheduleContext) (llm : String → String → Except String String)
    (extra : Option String) (e : String)
    (h : (runPipeline dm dateStr tmpl ctxE llm extra).res = .error e) :
    generateSchedule false dm dateStr tmpl ctxE llm extra =
      ⟨.ok (degraded dateStr), false, dm,
        (runPipeline dm dateStr tmpl ctxE llm extra).calls,
        (runPipeline dm dateStr tmpl ctxE llm extra).fok⟩ := by
  simp only [generateSchedule, Bool.false_eq_true, if_false]
  rcases hP : runPipeline dm dateStr tmpl ctxE llm extra with ⟨res, calls, fok⟩
  rw [hP] at h
  have hres : res = .error e := h
  subst hres
  rfl

theorem repairLoop_calls_sublist (ctx : ScheduleContext)
    (llm : String → String → Except String String) (dateStr : String) :
    ∀ (as : List Nat) (content : String) (payload : Option (List (String × JVal)))
      (ok : Bool) (reason : String),
      (repairLoop ctx llm dateStr as content payload ok reason).2.Sublist
        (as.map (sidOf dateStr)) := by
  intro as
  induction as with
  | nil => intro content payload ok reason; simp [repairLoop]
  | cons a rest ih =>
      intro content payload ok reason
      simp only [repairLoop, List.map_cons]
      by_cases hok : ok = true
      · rw [if_pos hok]
        exact List.nil_sublist _
      · rw [if_neg hok]
        cases hl : llm (sidOf dateStr a) (buildStyleRepairPrompt ctx content reason) with
        | error e => exact (List.nil_sublist _).cons₂ _
        | ok c2 => exact (ih c2 (extractJsonObj c2) _ _).cons₂ _

theorem runPipeline_spec (dm : DMState) (dateStr tmpl : String)
    (ctxE : Except String ScheduleContext) (llm : String → String → Except String String)
    (extra : Option String) :
    (runPipeline dm dateStr tmpl ctxE llm extra).calls.Sublist
        [sidOf dateStr 0, sidOf dateStr 1, sidOf dateStr 2] ∧
    ((runPipeline dm dateStr tmpl ctxE llm extra).fok = some false →
      ∃ e, (runPipeline dm dateStr tmpl ctxE llm extra).res = .error e) := by
  cases ctxE with
  | error e =>
      constructor
      · simp only [runPipeline]
        exact List.nil_sublist _
      · simp only [runPipeline]
        intro h
        exact absurd h (by simp)
  | ok ctx =>
      cases hbp : buildPrompt tmpl ctx extra with
      | error e =>
          constructor
          · simp only [runPipeline, hbp]
            exact List.nil_sublist _
          · simp only [runPipeline, hbp]
            intro h
            exact absurd h (by simp)
      | ok prompt =>
          cases hl : llm (sidOf dateStr 0) prompt with
          | error e =>
              constructor
              · simp only [runPipeline, hbp, hl]
                exact (List.nil_sublist _).cons₂ _
              · simp only [runPipeline, hbp, hl]
                intro h
                exact absurd h (by simp)
          | ok c0 =>
              have hsub := repairLoop_calls_sublist ctx llm dateStr [1, 2] c0
                (extractJsonObj c0) (validatePayload (extractJsonObj c0) ctx).1
                (validatePayload (extractJsonObj c0) ctx).2
              simp only [List.map_cons, List.map_nil] at hsub
              rcases hr : repairLoop ctx llm dateStr [1, 2] c0 (extractJsonObj c0)
                  (validatePayload (extractJsonObj c0) ctx).1
                  (validatePayload (extractJsonObj c0) ctx).2 with ⟨rres, rcalls⟩
              rw [hr] at hsub
              cases rres with
              | error e =>
                  constructor
                  · simp only [runPipeline, hbp, hl, hr]
                    exact hsub.cons₂ _
                  · simp only [runPipeline, hbp, hl, hr]
                    intro h
                    exact absurd h (by simp)
              | ok pv =>
                  by_cases hb : (pv.2.1 && payloadTruthy pv.1) = true
                  · cases hpl : pv.1 with
                    | none =>
                        rw [hpl] at hb
                        simp [payloadTruthy] at hb
                    | some kvs =>
                        rw [hpl] at hb
                        cases htd : toScheduleData kvs dateStr ctx with
                        | error e =>
                            constructor
                            · simp only [runPipeline, hbp, hl, hr, hpl, htd]
                              rw [if_pos hb]
                              exact hsub.cons₂ _
                            · simp only [runPipeline, hbp, hl, hr, hpl, htd]
                              rw [if_pos hb]
                              intro h
                              exact absurd h (by simp)
                        | ok d2 =>
                            constructor
                            · simp only [runPipeline, hbp, hl, hr, hpl, htd]
                              rw [if_pos hb]
                              exact hsub.cons₂ _
                            · simp only [runPipeline, hbp, hl, hr, hpl, htd]
                              rw [if_pos hb]
                              intro h
                              exact absurd h (by simp)
                  · constructor
                    · simp only [runPipeline, hbp, hl, hr, hb, if_false]
                      exact hsub.cons₂ _
                    · simp only [runPipeline, hbp, hl, hr, hb, if_false]
                      intro h
                      exact ⟨_, rfl⟩

theorem sidOf_inj (d : String) (i j : Nat) (h : sidOf d i = sidOf d j) :
    Nat.repr i = Nat.repr j := by
  have hdata : ∀ (a b : String), (a ++ b).data = a.data ++ b.data := by
    intro a b
    cases a
    cases b
    rfl
  have h2 := congrArg String.data h
  simp only [sidOf] at h2
  rw [hdata, hdata] at h2
  have h3 := List.append_cancel_left h2
  exact congrArg String.mk h3

theorem sid_triple_nodup (d : String) :
    ([sidOf d 0, sidOf d 1, sidOf d 2] : List String).Nodup := by
  have h01 : sidOf d 0 ≠ sidOf d 1 := by
    intro h
    exact absurd (sidOf_inj d 0 1 h) (by decide)
  have h02 : sidOf d 0 ≠ sidOf d 2 := by
    intro h
    exact absurd (sidOf_inj d 0 2 h) (by decide)
  have h12 : sidOf d 1 ≠ sidOf d 2 := by
    intro h
    exact absurd (sidOf_inj d 1 2 h) (by decide)
  simp [List.nodup_cons, h01, h02, h12]

/-- C3: a call made while a generation is in progress (`_generating`
set) fails immediately with the `schedule_generating` error: the model
is never invoked, the artifact store and file are untouched, and the
in-flight generation's flag stays set. -/
theorem c3_theorem (dm : DMState) (dateStr tmpl : String)
    (ctxE : Except String ScheduleContext) (llm : String → String → Except String String)
    (extra : Option String) :
    generateSchedule true dm dateStr tmpl ctxE llm extra =
      ⟨.error "schedule_generating", true, dm, [], none⟩ := rfl

/-- C1 counterexample: when the model call raises, the call returns the
degraded record but the artifact store does NOT receive it — there is no
record under the target date key after the call, refuting the claim's
"persisted into the artifact store under the target date key before the
call returns".  (The `except` branch builds the degraded record without
assigning it to `data`, and the `finally` block persists only `if
data:`.) -/
theorem c1_counterexample :
    (generateSchedule false dmEmpty "2024-01-01" "t" (.ok ctxPlain) llmBoom none).value =
      .ok ⟨"2024-01-01", "生成失败", "生成失败", "failed"⟩ ∧
    dictGet (generateSchedule false dmEmpty "2024-01-01" "t" (.ok ctxPlain)
        llmBoom none).dm.store "2024-01-01" = none ∧
    (generateSchedule false dmEmpty "2024-01-01" "t" (.ok ctxPlain) llmBoom none).dm.file =
      none :=
  ⟨rfl, rfl, rfl⟩

/-- C1 (amended): when any step of the generation chain raises, the call
catches the exception and returns a degraded record whose `outfit` and
`schedule` are the `生成失败` sentinel and whose status is `failed` —
but the degraded record is NOT persisted: the artifact store (memory and
file) is left exactly as it was. -/
theorem c1_theorem (dm : DMState) (dateStr tmpl : String)
    (ctxE : Except String ScheduleContext) (llm : String → String → Except String String)
    (extra : Option String) (e : String)
    (h : (runPipeline dm dateStr tmpl ctxE llm extra).res = .error e) :
    (generateSchedule false dm dateStr tmpl ctxE llm extra).value =
      .ok (degraded dateStr) ∧
    (generateSchedule false dm dateStr tmpl ctxE llm extra).dm = dm ∧
    (degraded dateStr).outfit = "生成失败" ∧
    (degraded dateStr).schedule = "生成失败" ∧
    (degraded dateStr).status = "failed" := by
  have hg := generateSchedule_error dm dateStr tmpl ctxE llm extra e h
  rw [hg]
  exact ⟨rfl, rfl, rfl, rfl, rfl⟩

/-- C1 witness: concrete run in which the model call raises. -/
theorem c1_witness :
    (generateSchedule false dmEmpty "2024-01-02" "t" (.ok ctxPlain) llmBoom none).value =
      .ok (degraded "2024-01-02") ∧
    (generateSchedule false dmEmpty "2024-01-02" "t" (.ok ctxPlain) llmBoom none).dm =
      dmEmpty ∧
    (degraded "2024-01-02").outfit = "生成失败" ∧
    (degraded "2024-01-02").schedule = "生成失败" ∧
    (degraded "2024-01-02").status = "failed" :=
  c1_theorem dmEmpty "2024-01-02" "t" (.ok ctxPlain) llmBoom none "provider boom" rfl

/-- C2: the success path is broken in this code.  On a run in which the
model returns a valid payload and validation succeeds on the first
attempt (final verdict `some true`), `_to_schedule_data` raises
`TypeError` — it passes the keyword `outfit_style` to the
`ScheduleData` constructor, which has no such field — so the call
returns an unpersisted `failed` record instead of persisting and
returning a `status=ok` record. -/
theorem c2_theorem :
    (generateSchedule false dmEmpty "2024-01-01" "t" (.ok ctxPlain) llmGoodXY none).fok =
      some true ∧
    (generateSchedule false dmEmpty "2024-01-01" "t" (.ok ctxPlain) llmGoodXY none).value =
      .ok ⟨"2024-01-01", "生成失败", "生成失败", "failed"⟩ ∧
    (generateSchedule false dmEmpty "2024-01-01" "t" (.ok ctxPlain) llmGoodXY none).dm.store =
      [] ∧
    toScheduleData [("outfit", JVal.str "x"), ("schedule", JVal.str "y")] "2024-01-01"
        ctxPlain =
      .error "TypeError: unexpected keyword argument outfit_style" :=
  ⟨rfl, rfl, rfl, rfl⟩

/-- C5: the model is invoked at most 3 times per call (initial attempt
plus at most 2 repairs), on pairwise-distinct synthetic session ids; and
when the final verdict is still a validation failure, the call returns
the degraded `failed` record and produces no record in the store. -/
theorem c5_theorem (generating : Bool) (dm : DMState) (dateStr tmpl : String)
    (ctxE : Except String ScheduleContext) (llm : String → String → Except String String)
    (extra : Option String) :
    (generateSchedule generating dm dateStr tmpl ctxE llm extra).calls.length ≤ 3 ∧
    (generateSchedule generating dm dateStr tmpl ctxE llm extra).calls.Nodup ∧
    ((generateSchedule generating dm dateStr tmpl ctxE llm extra).fok = some false →
      (generateSchedule generating dm dateStr tmpl ctxE llm extra).value =
        .ok (degraded dateStr) ∧
      (generateSchedule generating dm dateStr tmpl ctxE llm extra).dm = dm) := by
  cases generating with
  | true =>
      refine ⟨by simp [generateSchedule], by simp [generateSchedule], ?_⟩
      intro h
      simp [generateSchedule] at h
  | false =>
      obtain ⟨hshape, hfokerr⟩ := runPipeline_spec dm dateStr tmpl ctxE llm extra
      have hcalls : (generateSchedule false dm dateStr tmpl ctxE llm extra).calls =
          (runPipeline dm dateStr tmpl ctxE llm extra).calls := by
        simp only [generateSchedule, Bool.false_eq_true, if_false]
        rcases hP : runPipeline dm dateStr tmpl ctxE llm extra with ⟨res, calls, fok⟩
        cases res <;> rfl
      have hfok : (generateSchedule false dm dateStr tmpl ctxE llm extra).fok =
          (runPipeline dm dateStr tmpl ctxE llm extra).fok := by
        simp only [generateSchedule, Bool.false_eq_true, if_false]
        rcases hP : runPipeline dm dateStr tmpl ctxE llm extra with ⟨res, calls, fok⟩
        cases res <;> rfl
      refine ⟨?_, ?_, ?_⟩
      · rw [hcalls]
        have := hshape.length_le
        simpa using this
      · rw [hcalls]
        exact (sid_triple_nodup dateStr).sublist hshape
      · intro h
        rw [hfok] at h
        obtain ⟨e, he⟩ := hfokerr h
        have hg := generateSchedule_error dm dateStr tmpl ctxE llm extra e he
        rw [hg]
        exact ⟨rfl, rfl⟩

/-- C5 witness: with a required style `cozy` and a model that always
returns `{}`, all 3 attempts fail validation and the call ends with the
degraded record and an unchanged store. -/
theorem c5_witness :
    (generateSchedule false dmEmpty "2024-01-01" "t" (.ok ctxCozy) llmEmptyObj none).value =
      .ok (degraded "2024-01-01") ∧
    (generateSchedule false dmEmpty "2024-01-01" "t" (.ok ctxCozy) llmEmptyObj none).dm =
      dmEmpty :=
  (c5_theorem false dmEmpty "2024-01-01" "t" (.ok ctxCozy) llmEmptyObj none).2.2 rfl
